import Mathlib

/-
Verification of the ormgen runtime query engine: a shallow embedding of the
`orm` and `scope` packages (query builder, dialect abstraction, placeholder
rewriting, join-table resolution, transaction wrapper) together with proofs
of the specified properties.
-/

namespace Ormgen

/-- Runtime values passed as query arguments (Go `any`).  `vnull` is the nil
interface value. -/
inductive GoValue where
  | vnull
  | vint (n : Int)
  | vstr (s : String)
  | vtime (n : Nat)
deriving DecidableEq, Repr

/-- SQL dialects: the closed two-variant set from the `orm` package. -/
inductive Dialect where
  | mysql
  | postgres
deriving DecidableEq, Repr

/-- `Placeholder` from the Dialect interface: MySQL returns a fixed `?`
token regardless of index; PostgreSQL returns `$1`, `$2`, … -/
def Dialect.placeholder : Dialect → Nat → String
  | .mysql, _ => "?"
  | .postgres, i => "$" ++ toString i

/-- `QuoteIdent`: MySQL uses backticks, PostgreSQL double quotes. -/
def Dialect.quoteIdent : Dialect → String → String
  | .mysql, n => "`" ++ n ++ "`"
  | .postgres, n => "\"" ++ n ++ "\""

/-- `UseReturning`: whether INSERT retrieves the generated key via RETURNING. -/
def Dialect.useReturning : Dialect → Bool
  | .mysql => false
  | .postgres => true

/-- `ReturningClause`: appended to INSERT statements (empty for MySQL). -/
def Dialect.returningClause : Dialect → String → String
  | .mysql, _ => ""
  | .postgres, pk => " RETURNING \"" ++ pk ++ "\""

/-- Number of occurrences of character `c` in string `s`. -/
def countChar (c : Char) (s : String) : Nat := s.data.count c

/-- Go `strings.Join`: the elements separated by `sep`. -/
def strJoin (sep : String) : List String → String
  | [] => ""
  | [s] => s
  | s :: rest => s ++ sep ++ strJoin sep rest

/-- The character-level loop of `rewrite` (src/orm/query.go) and
`rewritePlaceholders` (src/orm/join_table.go): walk the query once and
replace each `?` with the dialect's placeholder for the running 1-based
index. -/
def charRewrite (d : Dialect) : Nat → List Char → List Char
  | _, [] => []
  | idx, c :: rest =>
    if c = '?' then (d.placeholder idx).data ++ charRewrite d (idx + 1) rest
    else c :: charRewrite d idx rest

/-- `rewrite` from src/orm/query.go: converts `?` placeholders to
dialect-specific placeholders.  A no-op for MySQL; for the other dialect the
string is walked once with a running index.  Arguments pass through. -/
def rewrite (d : Dialect) (query : String) (args : List GoValue) :
    String × List GoValue :=
  if d = .mysql then (query, args) else (⟨charRewrite d 1 query.data⟩, args)

/-- `rewritePlaceholders` from src/orm/join_table.go: the string-only variant
of `rewrite`. -/
def rewritePlaceholders (d : Dialect) (query : String) : String :=
  if d = .mysql then query else ⟨charRewrite d 1 query.data⟩

/-- Concatenation of `?`-free segments with one `?` between consecutive
segments: the canonical decomposition of an authored SQL string by its `?`
occurrences. -/
def qmarkJoin : List String → String
  | [] => ""
  | [s] => s
  | s :: rest => s ++ "?" ++ qmarkJoin rest

/-- The same segments with the k-th separator rendered as the PostgreSQL
positional token `$k`. -/
def posJoin (k : Nat) : List String → String
  | [] => ""
  | [s] => s
  | s :: rest => s ++ "$" ++ toString k ++ posJoin (k + 1) rest

/-! ### The scope package (src/unnamed sources, package scope) -/

/-- `scope.Scope`: an immutable tagged query-fragment value with five
variants (the `scopeKind` enum collapsed into constructors). -/
inductive Scope where
  | swhere (clause : String) (args : List GoValue)
  | sorderBy (clause : String)
  | slimit (n : Int)
  | soffset (n : Int)
  | sselect (columns : String)
deriving DecidableEq, Repr

/-- `scope.Where`. -/
def scopeWhere (clause : String) (args : List GoValue) : Scope :=
  .swhere clause args

/-- `repeatJoin` from the scope package: `count` copies of `s` joined with
`", "` (empty for `count = 0`). -/
def repeatJoin (s : String) (count : Nat) : String :=
  strJoin ", " (List.replicate count s)

/-- `scope.In`: empty value list yields the permanently-false fragment
`1 = 0`; otherwise one `?` per value with the values as arguments. -/
def scopeIn (column : String) (values : List GoValue) : Scope :=
  if values.length = 0 then scopeWhere "1 = 0" []
  else scopeWhere (column ++ " IN (" ++ repeatJoin "?" values.length ++ ")") values

/-! ### Go heap model: backing arrays, slices, maps

The builder-immutability and registry-sharing claims are about aliasing, so
slices and maps are modelled through an explicit heap: a slice header points
at a backing array in a store, `append` writes in place when capacity
remains and reallocates otherwise, and maps are references into a store of
association lists. -/

/-- A Go backing array: its initialized cells plus its total capacity. -/
structure GoArray (α : Type) where
  cells : List α
  cap : Nat
deriving DecidableEq, Repr

/-- A store of backing arrays; ids are list indices, allocation appends. -/
structure Store (α : Type) where
  arrs : List (GoArray α)
deriving DecidableEq, Repr

def Store.get (st : Store α) (i : Nat) : GoArray α := st.arrs.getD i ⟨[], 0⟩

/-- The next fresh array id. -/
def Store.fresh (st : Store α) : Nat := st.arrs.length

/-- A Go slice header. -/
structure GoSlice where
  arr : Nat
  len : Nat
  cap : Nat
deriving DecidableEq, Repr

/-- The nil slice (`[]T(nil)`). -/
def nilSlice : GoSlice := ⟨0, 0, 0⟩

/-- The elements a slice denotes: the first `len` cells of its array. -/
def Store.read (st : Store α) (s : GoSlice) : List α :=
  (st.get s.arr).cells.take s.len

/-- Overwrite cell `i` of a cell list (extends by one when `i` is the first
uninitialized position, which is the only out-of-range use that occurs). -/
def writeCell (c : List α) (i : Nat) (x : α) : List α :=
  c.take i ++ [x] ++ c.drop (i + 1)

/-- Write cell `j` of array `i` in place. -/
def Store.write (st : Store α) (i j : Nat) (x : α) : Store α :=
  ⟨st.arrs.set i ⟨writeCell (st.get i).cells j x, (st.get i).cap⟩⟩

/-- Go `append(s, x)`: writes in place when capacity remains, otherwise
reallocates with an implementation-chosen capacity of at least `len + 1`
(the choice is passed in as `growCap`). -/
def Store.append1 (st : Store α) (s : GoSlice) (x : α) (growCap : Nat) :
    Store α × GoSlice :=
  if s.len < s.cap then
    (st.write s.arr s.len x, ⟨s.arr, s.len + 1, s.cap⟩)
  else
    let cells := st.read s ++ [x]
    let c := max growCap cells.length
    (⟨st.arrs ++ [⟨cells, c⟩]⟩, ⟨st.fresh, cells.length, c⟩)

/-- Go `append([]T(nil), src...)` as used by `clone`: an empty source yields
the nil slice (no allocation), otherwise a fresh array holding a copy of the
elements, with implementation-chosen capacity at least the length. -/
def Store.copySlice (st : Store α) (s : GoSlice) (allocCap : Nat) :
    Store α × GoSlice :=
  if s.len = 0 then (st, nilSlice)
  else
    let cells := st.read s
    let c := max allocCap cells.length
    (⟨st.arrs ++ [⟨cells, c⟩]⟩, ⟨st.fresh, cells.length, c⟩)

/-- A store of Go maps (modelled as association lists; only lookups and
inserts occur, so iteration order never matters). -/
structure MapStore (κ α : Type) where
  maps : List (List (κ × α))
deriving DecidableEq, Repr

def MapStore.get (ms : MapStore κ α) (i : Nat) : List (κ × α) :=
  ms.maps.getD i []

def MapStore.fresh (ms : MapStore κ α) : Nat := ms.maps.length

/-- Association-list lookup (Go map read). -/
def assocGet [DecidableEq κ] (m : List (κ × α)) (k : κ) : Option α :=
  (m.find? (fun p => p.1 = k)).map (·.2)

/-- Association-list insert/replace (Go map write). -/
def assocPut [DecidableEq κ] (m : List (κ × α)) (k : κ) (v : α) :
    List (κ × α) :=
  if m.any (fun p => p.1 = k) then
    m.map (fun p => if p.1 = k then (k, v) else p)
  else m ++ [(k, v)]

/-- `make(map[κ]α)`: allocate a fresh empty map, returning its id. -/
def MapStore.alloc (ms : MapStore κ α) : MapStore κ α × Nat :=
  (⟨ms.maps ++ [[]]⟩, ms.maps.length)

/-- Insert into the map with id `i`. -/
def MapStore.put [DecidableEq κ] (ms : MapStore κ α) (i : Nat) (k : κ)
    (v : α) : MapStore κ α :=
  ⟨ms.maps.set i (assocPut (ms.get i) k v)⟩

/-! ### The Query builder (src/orm/query.go) -/

/-- `whereClause`: one accumulated predicate fragment with its arguments. -/
structure WhereClause where
  clause : String
  args : List GoValue
deriving DecidableEq, Repr

/-- `JoinConfig`: metadata for building a JOIN clause at runtime. -/
structure JoinConfig where
  targetTable : String
  targetColumn : String
  sourceTable : String
  sourceColumn : String
deriving DecidableEq, Repr

/-- The heap backing Query values: one store per element type plus the two
registry map stores (preloader functions are opaque, identified by `Nat`). -/
structure St where
  ws : Store WhereClause
  ss : Store String
  jds : MapStore String JoinConfig
  pls : MapStore String Nat
deriving DecidableEq, Repr

/-- `Query[T]`: the builder state.  `dialect` stands for `q.db.dialect()`;
the decode/encode/setPK functions are supplied at the call sites that need
them.  `createdAtCols` is the registered created-at column set — Modelled
from the spec: the timestamp extension (`RegisterTimestamps`) is absent from
the sources, which contain only its tests and generated callers; per the
spec it registers a created-at-only field set consulted by upsert. -/
structure Query where
  dialect : Dialect
  table : String
  columns : List String
  pk : String
  wheres : GoSlice
  orderBys : GoSlice
  joins : GoSlice
  selects : Option String
  limit : Option Int
  offset : Option Int
  joinDefs : Option Nat
  preloaders : Option Nat
  preloads : GoSlice
  createdAtCols : List String
deriving DecidableEq, Repr

/-- `NewQuery`: all slice fields nil, registries nil. -/
def NewQuery (d : Dialect) (table : String) (columns : List String)
    (pk : String) : Query :=
  ⟨d, table, columns, pk, nilSlice, nilSlice, nilSlice, none, none, none,
    none, none, nilSlice, []⟩

/-- `qi`: quote an identifier using the connection's dialect. -/
def Query.qi (q : Query) (name : String) : String :=
  q.dialect.quoteIdent name

/-- `quoteColumns`: join column names with dialect-aware quoting. -/
def Query.quoteColumns (q : Query) (cols : List String) : String :=
  strJoin ", " (cols.map q.qi)

/-- Implementation-chosen capacities for the allocations a builder call may
perform: one per slice field copied by `clone`, then one per subsequent
append.  Theorems quantify over all choices. -/
structure Caps where
  c1 : Nat
  c2 : Nat
  c3 : Nat
  c4 : Nat
  grow : List Nat
deriving Repr

/-- `clone`: shallow copy with the four slice fields deep-copied to avoid
aliasing; scalar fields and the two registry maps are shared. -/
def clone (st : St) (q : Query) (cp : Caps) : St × Query :=
  let r1 := st.ws.copySlice q.wheres cp.c1
  let r2 := st.ss.copySlice q.orderBys cp.c2
  let r3 := r2.1.copySlice q.joins cp.c3
  let r4 := r3.1.copySlice q.preloads cp.c4
  ({ st with ws := r1.1, ss := r4.1 },
   { q with wheres := r1.2, orderBys := r2.2, joins := r3.2, preloads := r4.2 })

/-- `Where`: clone, then append the clause to the clone's `wheres`. -/
def Query.Where (st : St) (q : Query) (clause : String) (args : List GoValue)
    (cp : Caps) : St × Query :=
  let r := clone st q cp
  let a := r.1.ws.append1 r.2.wheres ⟨clause, args⟩ (cp.grow.headD 0)
  ({ r.1 with ws := a.1 }, { r.2 with wheres := a.2 })

/-- `OrderBy`: clone, then append the clause to the clone's `orderBys`. -/
def Query.OrderBy (st : St) (q : Query) (clause : String) (cp : Caps) :
    St × Query :=
  let r := clone st q cp
  let a := r.1.ss.append1 r.2.orderBys clause (cp.grow.headD 0)
  ({ r.1 with ss := a.1 }, { r.2 with orderBys := a.2 })

/-- `Limit`: clone, then set `limit` on the clone. -/
def Query.Limit (st : St) (q : Query) (n : Int) (cp : Caps) : St × Query :=
  let r := clone st q cp
  (r.1, { r.2 with limit := some n })

/-- `Offset`: clone, then set `offset` on the clone. -/
def Query.Offset (st : St) (q : Query) (n : Int) (cp : Caps) : St × Query :=
  let r := clone st q cp
  (r.1, { r.2 with offset := some n })

/-- `Select`: clone, then set the column-override string on the clone. -/
def Query.Select (st : St) (q : Query) (columns : String) (cp : Caps) :
    St × Query :=
  let r := clone st q cp
  (r.1, { r.2 with selects := some columns })

/-- `addJoin`: look the relation up in the registry (a nil map or a missing
name is a silent no-op), build the fixed-shape clause, clone, append. -/
def Query.addJoin (st : St) (q : Query) (joinType name : String)
    (cp : Caps) : St × Query :=
  match q.joinDefs.bind (fun i => assocGet (st.jds.get i) name) with
  | none => (st, q)
  | some cfg =>
    let c := joinType ++ " " ++ q.qi cfg.targetTable ++ " ON " ++
      q.qi cfg.targetTable ++ "." ++ q.qi cfg.targetColumn ++ " = " ++
      q.qi cfg.sourceTable ++ "." ++ q.qi cfg.sourceColumn
    let r := clone st q cp
    let a := r.1.ss.append1 r.2.joins c (cp.grow.headD 0)
    ({ r.1 with ss := a.1 }, { r.2 with joins := a.2 })

/-- `Join`: INNER JOIN for the named relation. -/
def Query.Join (st : St) (q : Query) (name : String) (cp : Caps) :
    St × Query :=
  q.addJoin st "INNER JOIN" name cp

/-- `LeftJoin`: LEFT JOIN for the named relation. -/
def Query.LeftJoin (st : St) (q : Query) (name : String) (cp : Caps) :
    St × Query :=
  q.addJoin st "LEFT JOIN" name cp

/-- `Preload`: clone, then append the relation name to the clone's
`preloads`. -/
def Query.Preload (st : St) (q : Query) (name : String) (cp : Caps) :
    St × Query :=
  let r := clone st q cp
  let a := r.1.ss.append1 r.2.preloads name (cp.grow.headD 0)
  ({ r.1 with ss := a.1 }, { r.2 with preloads := a.2 })

/-- `ApplyWhere` (scope.Applier): appends in place on the receiver. -/
def Query.ApplyWhere (st : St) (q : Query) (clause : String)
    (args : List GoValue) (g : Nat) : St × Query :=
  let a := st.ws.append1 q.wheres ⟨clause, args⟩ g
  ({ st with ws := a.1 }, { q with wheres := a.2 })

/-- `ApplyOrderBy` (scope.Applier): appends in place on the receiver. -/
def Query.ApplyOrderBy (st : St) (q : Query) (clause : String) (g : Nat) :
    St × Query :=
  let a := st.ss.append1 q.orderBys clause g
  ({ st with ss := a.1 }, { q with orderBys := a.2 })

/-- `Scope.Apply`: dispatch one scope to the applier's capability methods
(the limit/offset/select cases mutate scalar fields only). -/
def Scope.Apply (s : Scope) (st : St) (q : Query) (g : Nat) : St × Query :=
  match s with
  | .swhere clause args => q.ApplyWhere st clause args g
  | .sorderBy clause => q.ApplyOrderBy st clause g
  | .slimit n => (st, { q with limit := some n })
  | .soffset n => (st, { q with offset := some n })
  | .sselect columns => (st, { q with selects := some columns })

/-- The loop body of `Scopes`: apply each scope to the clone in order, each
append consuming one implementation-chosen grow capacity. -/
def applyScopes (st : St) (q : Query) : List Scope → List Nat → St × Query
  | [], _ => (st, q)
  | s :: rest, gs =>
    let r := s.Apply st q (gs.headD 0)
    applyScopes r.1 r.2 rest gs.tail

/-- `Scopes`: clone once, then apply every scope to the clone. -/
def Query.Scopes (st : St) (q : Query) (scopes : List Scope) (cp : Caps) :
    St × Query :=
  let r := clone st q cp
  applyScopes r.1 r.2 scopes cp.grow

/-! ### SQL building (src/orm/query.go) -/

/-- `appendWhere`, SQL part: empty for no predicates, else `" WHERE "` with
the clauses AND-joined in insertion order. -/
def whereSQL (ws : List WhereClause) : String :=
  if ws.isEmpty then ""
  else " WHERE " ++ strJoin " AND " (ws.map (·.clause))

/-- `appendWhere`, argument part: all clause arguments in insertion order. -/
def whereArgs (ws : List WhereClause) : List GoValue :=
  (ws.map (·.args)).flatten

/-- `buildSelect`: the full SELECT text and arguments. -/
def buildSelect (st : St) (q : Query) : String × List GoValue :=
  let ws := st.ws.read q.wheres
  let obs := st.ss.read q.orderBys
  let sql :=
    "SELECT " ++
    (match q.selects with
     | some s => s
     | none => q.quoteColumns q.columns) ++
    " FROM " ++ q.qi q.table ++
    String.join ((st.ss.read q.joins).map (fun j => " " ++ j)) ++
    whereSQL ws ++
    (if obs.isEmpty then "" else " ORDER BY " ++ strJoin ", " obs) ++
    (match q.limit with
     | some n => " LIMIT " ++ toString n
     | none => "") ++
    (match q.offset with
     | some n => " OFFSET " ++ toString n
     | none => "")
  (sql, whereArgs ws)

/-- `buildCount`: `SELECT COUNT(*)` with joins, predicates, limit/offset. -/
def buildCount (st : St) (q : Query) : String × List GoValue :=
  let ws := st.ws.read q.wheres
  let sql :=
    "SELECT COUNT(*) FROM " ++ q.qi q.table ++
    String.join ((st.ss.read q.joins).map (fun j => " " ++ j)) ++
    whereSQL ws ++
    (match q.limit with
     | some n => " LIMIT " ++ toString n
     | none => "") ++
    (match q.offset with
     | some n => " OFFSET " ++ toString n
     | none => "")
  (sql, whereArgs ws)

/-- `buildDelete`: `DELETE FROM` plus the accumulated predicates. -/
def buildDelete (st : St) (q : Query) : String × List GoValue :=
  let ws := st.ws.read q.wheres
  ("DELETE FROM " ++ q.qi q.table ++ whereSQL ws, whereArgs ws)

/-- `buildInsert`: positional INSERT for the given columns. -/
def Query.buildInsert (q : Query) (columns : List String) : String :=
  "INSERT INTO " ++ q.qi q.table ++ " (" ++ q.quoteColumns columns ++
    ") VALUES (" ++ repeatJoin "?" columns.length ++ ")"

/-- `buildBatchInsert`: one INSERT with `rowCount` identical value groups. -/
def Query.buildBatchInsert (q : Query) (columns : List String)
    (rowCount : Nat) : String :=
  let oneRow := "(" ++ repeatJoin "?" columns.length ++ ")"
  "INSERT INTO " ++ q.qi q.table ++ " (" ++ q.quoteColumns columns ++
    ") VALUES " ++ strJoin ", " (List.replicate rowCount oneRow)

/-- The update list of `buildUpsert`: every inserted column except the
primary key — and except the registered created-at columns (that exclusion
is Modelled from the spec: the timestamp-aware upsert is absent from the
sources, which hold only its tests; the spec excludes the created-at-only
field set from the conflict update list).  With no created-at registration
this is exactly the source's `updateCols` loop. -/
def upsertUpdateCols (q : Query) (columns : List String) : List String :=
  columns.filter (fun c => c ≠ q.pk ∧ c ∉ q.createdAtCols)

/-- The MySQL conflict clause body: `col = VALUES(col)` per update column. -/
def mysqlSets (q : Query) (cols : List String) : String :=
  strJoin ", "
    (cols.map (fun c => q.qi c ++ " = VALUES(" ++ q.qi c ++ ")"))

/-- The PostgreSQL conflict clause body: `col = EXCLUDED.col` per column. -/
def pgSets (q : Query) (cols : List String) : String :=
  strJoin ", "
    (cols.map (fun c => q.qi c ++ " = EXCLUDED." ++ q.qi c))

/-- `buildUpsert`: the INSERT with the engine-specific conflict clause. -/
def Query.buildUpsert (q : Query) (columns : List String) : String :=
  let head := q.buildInsert columns
  match q.dialect with
  | .mysql =>
    head ++ " ON DUPLICATE KEY UPDATE " ++ mysqlSets q (upsertUpdateCols q columns)
  | .postgres =>
    head ++ " ON CONFLICT (" ++ q.qi q.pk ++ ") DO UPDATE SET " ++
      pgSets q (upsertUpdateCols q columns)

/-- The generated column/value encoder (internal/gen renderer template):
`includesPK = true` yields every field in declaration order, `false` the
non-primary-key fields. -/
def colValPairs (pk : String) (fields : List (String × GoValue))
    (includesPK : Bool) : List String × List GoValue :=
  if includesPK then (fields.map (·.1), fields.map (·.2))
  else ((fields.filter (fun f => f.1 ≠ pk)).map (·.1),
        (fields.filter (fun f => f.1 ≠ pk)).map (·.2))

/-- `Upsert`: encode with the primary key always included, build the upsert
SQL, rewrite placeholders, and append the RETURNING clause afterwards when
the dialect uses RETURNING and a key setter is registered.  The result is
the statement sent to the connection. -/
def Query.Upsert (q : Query) (fields : List (String × GoValue))
    (hasSetPK : Bool) : String × List GoValue :=
  let cv := colValPairs q.pk fields true
  let r := rewrite q.dialect (q.buildUpsert cv.1) cv.2
  if q.dialect.useReturning ∧ hasSetPK then
    (r.1 ++ q.dialect.returningClause q.pk, r.2)
  else r

/-- `buildUpdate`: `UPDATE ... SET col = ? ... WHERE pk = ?`. -/
def Query.buildUpdate (q : Query) (setCols : List String) : String :=
  "UPDATE " ++ q.qi q.table ++ " SET " ++
    strJoin ", " (setCols.map (fun c => q.qi c ++ " = ?")) ++
    " WHERE " ++ q.qi q.pk ++ " = ?"

/-- The splitting loop of `Update`: walk the encoded pairs, remembering the
value paired with the pk column (`pkVal` starts as the nil interface) and
collecting the rest as the SET columns/values in order. -/
def updateSplit (pk : String) (pairs : List (String × GoValue)) :
    List String × List GoValue × GoValue :=
  pairs.foldl
    (fun acc cv =>
      if cv.1 = pk then (acc.1, acc.2.1, cv.2)
      else (acc.1 ++ [cv.1], acc.2.1 ++ [cv.2], acc.2.2))
    ([], [], GoValue.vnull)

/-- `Update`: split encoded pairs into pk and SET parts; a nil pk value is
rejected before anything is sent; otherwise the statement (with the pk value
appended as the final argument) is sent. -/
def Query.Update (q : Query) (allCols : List String)
    (allVals : List GoValue) : Except String (String × List GoValue) :=
  let sp := updateSplit q.pk (allCols.zip allVals)
  if sp.2.2 = GoValue.vnull then
    .error "orm: primary key value is required for Update"
  else
    let setVals := sp.2.1 ++ [sp.2.2]
    .ok (rewrite q.dialect (q.buildUpdate sp.1) setVals)

/-- `Delete`: refuses to execute with no accumulated WHERE clause;
otherwise the rewritten DELETE statement is sent.  `.error` means the call
returns before any statement reaches the connection. -/
def Query.Delete (st : St) (q : Query) :
    Except String (String × List GoValue) :=
  if q.wheres.len = 0 then
    .error "orm: Delete without WHERE clause is not allowed"
  else
    let b := buildDelete st q
    .ok (rewrite q.dialect b.1 b.2)

/-- Modelled from the spec: the bulk map-based `Updates` terminal is absent
from the sources (only its tests exist).  Per the spec it "applies an
arbitrary column→value map as the SET list against the accumulated WHERE,
also refusing execution with zero WHERE predicates"; the map is given as an
association list. -/
def Query.Updates (st : St) (q : Query) (sets : List (String × GoValue)) :
    Except String (String × List GoValue) :=
  if q.wheres.len = 0 then
    .error "orm: Updates without WHERE clause is not allowed"
  else
    let ws := st.ws.read q.wheres
    let sql := "UPDATE " ++ q.qi q.table ++ " SET " ++
      strJoin ", " (sets.map (fun c => q.qi c.1 ++ " = ?")) ++
      whereSQL ws
    .ok (rewrite q.dialect sql (sets.map (·.2) ++ whereArgs ws))

/-- One per-row key assignment performed by `CreateAll`: row index paired
with the id passed to `setPK`. -/
structure CreateAllOut where
  sql : String
  args : List GoValue
  assigns : List (Nat × Int)
deriving DecidableEq, Repr

/-- `CreateAll`: no statement for zero rows; otherwise one multi-row INSERT
(columns from the first row, primary key included only when no key setter
is registered).  RETURNING dialects with a setter consume the returned ids
in order, assigning the i-th id to the i-th row; otherwise, with a setter,
row i receives `firstID + i` from the exec result's LastInsertId. -/
def Query.CreateAll (q : Query) (hasSetPK : Bool)
    (items : List (List (String × GoValue))) (returnedIds : List Int)
    (firstID : Int) : Option CreateAllOut :=
  match items with
  | [] => none
  | it0 :: _ =>
    let includesPK := !hasSetPK
    let columns := (colValPairs q.pk it0 includesPK).1
    let allValues :=
      (items.map (fun it => (colValPairs q.pk it includesPK).2)).flatten
    let r := rewrite q.dialect (q.buildBatchInsert columns items.length)
      allValues
    if q.dialect.useReturning ∧ hasSetPK then
      some ⟨r.1 ++ q.dialect.returningClause q.pk, r.2,
        returnedIds.enum⟩
    else
      some ⟨r.1, r.2,
        if hasSetPK then (List.range items.length).map (fun i => (i, firstID + i))
        else []⟩

/-! ### RegisterJoin / RegisterPreloader (pointer-receiver mutation) -/

/-- `RegisterJoin`: mutates the receiver in place — allocates the registry
map on first use, then inserts.  The returned `Query` is the updated
receiver value. -/
def Query.RegisterJoin (st : St) (q : Query) (name : String)
    (cfg : JoinConfig) : St × Query :=
  match q.joinDefs with
  | none =>
    let a := st.jds.alloc
    ({ st with jds := a.1.put a.2 name cfg }, { q with joinDefs := some a.2 })
  | some i => ({ st with jds := st.jds.put i name cfg }, q)

/-- `RegisterPreloader`: same in-place registration for the preloader map
(the function value is an opaque id). -/
def Query.RegisterPreloader (st : St) (q : Query) (name : String)
    (fn : Nat) : St × Query :=
  match q.preloaders with
  | none =>
    let a := st.pls.alloc
    ({ st with pls := a.1.put a.2 name fn }, { q with preloaders := some a.2 })
  | some i => ({ st with pls := st.pls.put i name fn }, q)

/-! ### Transaction (src/orm/db.go) -/

/-- Possible behaviors of the callback passed to `Transaction`. -/
inductive FnOutcome where
  | ok
  | err (e : String)
  | panics (p : String)
deriving DecidableEq, Repr

/-- Observable transaction-manager actions, in execution order. -/
inductive TxAction where
  | abegin
  | acallFn
  | arollback
  | acommit
deriving DecidableEq, Repr

/-- How the `Transaction` call itself terminates. -/
inductive TxResult where
  | retOk
  | retErr (e : String)
  | panicked (p : String)
deriving DecidableEq, Repr

/-- `Transaction` from src/orm/db.go as a trace: begin (which may fail);
call `fn`; the deferred cleanup recovers a panic and rolls back before
re-raising it, rolls back when the returned error is non-nil, and otherwise
the commit (whose own failure also triggers the deferred rollback) stands. -/
def Transaction (beginErr : Option String) (fn : FnOutcome)
    (commitErr : Option String) : List TxAction × TxResult :=
  match beginErr with
  | some e => ([.abegin], .retErr e)
  | none =>
    match fn with
    | .panics p => ([.abegin, .acallFn, .arollback], .panicked p)
    | .err e => ([.abegin, .acallFn, .arollback], .retErr e)
    | .ok =>
      match commitErr with
      | none => ([.abegin, .acallFn, .acommit], .retOk)
      | some e => ([.abegin, .acallFn, .acommit, .arollback], .retErr e)

/-! ### Join-table resolver (src/orm/join_table.go) -/

/-- `JoinPair`: one (source, target) row read from an association table. -/
structure JoinPair (S T : Type) where
  source : S
  target : T
deriving DecidableEq, Repr

/-- The SELECT text `QueryJoinTable` authors before placeholder rewriting:
one `?` per source id inside the IN predicate. -/
def joinTableSQL (d : Dialect) (table sourceCol targetCol : String)
    (n : Nat) : String :=
  "SELECT " ++ d.quoteIdent sourceCol ++ ", " ++ d.quoteIdent targetCol ++
    " FROM " ++ d.quoteIdent table ++ " WHERE " ++ d.quoteIdent sourceCol ++
    " IN (" ++ repeatJoin "?" n ++ ")"

/-- `QueryJoinTable`: empty input short-circuits to no query and a nil
result; otherwise one rewritten SELECT is issued with the ids as arguments
and the connection's rows (a parameter here) are returned. -/
def QueryJoinTable (d : Dialect) (table sourceCol targetCol : String)
    (sourceIDs : List GoValue) (dbPairs : List (JoinPair GoValue GoValue)) :
    Option (String × List GoValue) × List (JoinPair GoValue GoValue) :=
  if sourceIDs.length = 0 then (none, [])
  else
    ((some (rewritePlaceholders d
        (joinTableSQL d table sourceCol targetCol sourceIDs.length),
      sourceIDs)), dbPairs)

/-- `UniqueTargets`: fold with a result slice and a seen set (the Go map is
membership in the mirror list). -/
def UniqueTargets [DecidableEq T] (pairs : List (JoinPair S T)) : List T :=
  (pairs.foldl
    (fun acc p =>
      if p.target ∈ acc.2 then acc
      else (acc.1 ++ [p.target], acc.2 ++ [p.target]))
    ([], [])).1

/-- Stable first-seen deduplication, stated the way the spec reads: keep
each element's first occurrence, dropping the later ones. -/
def firstSeen [DecidableEq T] : List T → List T
  | [] => []
  | x :: xs => x :: firstSeen (xs.filter (fun y => y ≠ x))
termination_by l => l.length
decreasing_by
  exact Nat.lt_succ_of_le (List.length_filter_le _ _)

/-- `GroupBySource`: build `map[S][]T` by appending each pair's target to
its source's group (the map is an association list in insertion order). -/
def GroupBySource [DecidableEq S] (pairs : List (JoinPair S T)) :
    List (S × List T) :=
  pairs.foldl
    (fun m p =>
      if m.any (fun e => e.1 = p.source) then
        m.map (fun e => if e.1 = p.source then (e.1, e.2 ++ [p.target]) else e)
      else m ++ [(p.source, [p.target])])
    []

/-- Go map read `m[s]` on the grouping: the nil slice for a missing key. -/
def groupLookup [DecidableEq S] (m : List (S × List T)) (s : S) : List T :=
  (assocGet m s).getD []

/-! ### Builder-call observables and frame vocabulary (for the
immutability law) -/

/-- The nine builder methods of the Query API, as one operation type. -/
inductive BuilderOp where
  | bWhere (clause : String) (args : List GoValue)
  | bOrderBy (clause : String)
  | bLimit (n : Int)
  | bOffset (n : Int)
  | bSelect (columns : String)
  | bJoin (name : String)
  | bLeftJoin (name : String)
  | bPreload (name : String)
  | bScopes (scopes : List Scope)

/-- Dispatch one builder call. -/
def applyOp (st : St) (q : Query) (op : BuilderOp) (cp : Caps) :
    St × Query :=
  match op with
  | .bWhere clause args => q.Where st clause args cp
  | .bOrderBy clause => q.OrderBy st clause cp
  | .bLimit n => q.Limit st n cp
  | .bOffset n => q.Offset st n cp
  | .bSelect columns => q.Select st columns cp
  | .bJoin name => q.Join st name cp
  | .bLeftJoin name => q.LeftJoin st name cp
  | .bPreload name => q.Preload st name cp
  | .bScopes scopes => q.Scopes st scopes cp

/-- The observable SQL text and argument lists a Query's terminal methods
produce: its SELECT, COUNT and DELETE statements. -/
def observable (st : St) (q : Query) :
    (String × List GoValue) × (String × List GoValue) ×
      (String × List GoValue) :=
  (buildSelect st q, buildCount st q, buildDelete st q)

/-- A slice reads only arrays that existed below bound `n` (or is empty). -/
def GoSlice.validIn (s : GoSlice) (n : Nat) : Prop :=
  s.len = 0 ∨ s.arr < n

/-- An in-place append through this slice can only touch arrays at or above
`n` (a nil-capacity slice never writes in place). -/
def GoSlice.freshOk (s : GoSlice) (n : Nat) : Prop :=
  s.cap = 0 ∨ n ≤ s.arr

/-- Frame relation: every array below `n` is unchanged and the store only
grew. -/
def Store.frameLe (n : Nat) (st st' : Store α) : Prop :=
  (∀ i, i < n → st'.get i = st.get i) ∧ st.fresh ≤ st'.fresh

/-- Frame over both stores of the heap. -/
def St.frame (nw ns : Nat) (st st' : St) : Prop :=
  Store.frameLe nw st.ws st'.ws ∧ Store.frameLe ns st.ss st'.ss

/-- The invariant `Scopes` maintains while applying scope values to the
freshly cloned query. -/
def ScopeInv (nw ns : Nat) (st : St) (q : Query) : Prop :=
  nw ≤ st.ws.fresh ∧ ns ≤ st.ss.fresh ∧
  q.wheres.freshOk nw ∧ q.orderBys.freshOk ns

/-- The value the `Update` splitting loop leaves as the primary-key value:
the last value paired with the pk column, the nil interface if none. -/
def lastPkVal (pk : String) (pairs : List (String × GoValue)) : GoValue :=
  pairs.foldl (fun acc cv => if cv.1 = pk then cv.2 else acc) .vnull

/-- One step of the `UniqueTargets` fold, on the target value alone. -/
def utStep [DecidableEq T] (acc : List T × List T) (x : T) :
    List T × List T :=
  if x ∈ acc.2 then acc else (acc.1 ++ [x], acc.2 ++ [x])

/-! ### Helper lemmas -/

theorem charRewrite_append_free (d : Dialect) (pre rest : List Char)
    (idx : Nat) (h : '?' ∉ pre) :
    charRewrite d idx (pre ++ rest) = pre ++ charRewrite d idx rest := by
  induction pre generalizing idx with
  | nil => simp
  | cons c cs ih =>
    simp only [List.mem_cons, not_or] at h
    rw [List.cons_append]
    simp only [charRewrite]
    rw [if_neg (fun hc => h.1 hc.symm), ih _ h.2, List.cons_append]

theorem charRewrite_qmark (d : Dialect) (idx : Nat) (rest : List Char) :
    charRewrite d idx ('?' :: rest) =
      (d.placeholder idx).data ++ charRewrite d (idx + 1) rest := by
  simp [charRewrite]

theorem charRewrite_qmarkJoin (segs : List String) (k : Nat)
    (h : ∀ s ∈ segs, '?' ∉ s.data) :
    charRewrite .postgres k (qmarkJoin segs).data = (posJoin k segs).data := by
  induction segs generalizing k with
  | nil => rfl
  | cons s rest ih =>
    cases rest with
    | nil =>
      have hs : '?' ∉ s.data := h s (by simp)
      have := charRewrite_append_free .postgres s.data [] k hs
      simpa [qmarkJoin, posJoin, charRewrite] using this
    | cons s2 rest2 =>
      have hs : '?' ∉ s.data := h s (by simp)
      have hrest : ∀ t ∈ s2 :: rest2, '?' ∉ t.data := fun t ht =>
        h t (List.mem_cons_of_mem s ht)
      show charRewrite .postgres k
          (s ++ "?" ++ qmarkJoin (s2 :: rest2)).data = _
      rw [String.data_append, String.data_append, List.append_assoc]
      rw [charRewrite_append_free .postgres s.data _ k hs]
      show s.data ++ charRewrite .postgres k
          ('?' :: (qmarkJoin (s2 :: rest2)).data) = _
      rw [charRewrite_qmark, ih _ hrest]
      show _ = (s ++ "$" ++ toString k ++ posJoin (k + 1) (s2 :: rest2)).data
      simp [String.data_append, Dialect.placeholder]

theorem countChar_append (c : Char) (a b : String) :
    countChar c (a ++ b) = countChar c a + countChar c b := by
  simp [countChar, String.data_append]

theorem countChar_eq_zero (c : Char) (s : String) (h : c ∉ s.data) :
    countChar c s = 0 := by
  simpa [countChar, List.count_eq_zero] using h

theorem countChar_strJoin_free (c : Char) (sep : String) (hsep : c ∉ sep.data)
    (l : List String) :
    countChar c (strJoin sep l) = (l.map (countChar c)).sum := by
  induction l with
  | nil => simp [strJoin, countChar]
  | cons s rest ih =>
    cases rest with
    | nil => simp [strJoin]
    | cons s2 r2 =>
      show countChar c (s ++ sep ++ strJoin sep (s2 :: r2)) = _
      rw [countChar_append, countChar_append, countChar_eq_zero c sep hsep, ih]
      simp [Nat.add_assoc]

theorem countChar_repeatJoin_qmark (n : Nat) :
    countChar '?' (repeatJoin "?" n) = n := by
  rw [repeatJoin, countChar_strJoin_free _ _ (by decide)]
  have h1 : countChar '?' "?" = 1 := by decide
  simp [h1]

/-! ### Claim theorems -/

/-- C2: placeholder rewriting is the identity for the MySQL-style dialect;
for the PostgreSQL-style dialect the k-th `?` of the authored SQL (counting
left to right across the whole string, here presented as the k-th separator
of its `?`-free segment decomposition) becomes the positional token `$k`,
and the argument list passes through unchanged in both cases. -/
theorem rewrite_placeholder_correct (q : String) (args : List GoValue)
    (segs : List String) (h : ∀ s ∈ segs, '?' ∉ s.data) :
    rewrite .mysql q args = (q, args) ∧
    rewrite .postgres (qmarkJoin segs) args = (posJoin 1 segs, args) := by
  refine ⟨rfl, ?_⟩
  show (String.mk (charRewrite .postgres 1 (qmarkJoin segs).data), args) = _
  rw [charRewrite_qmarkJoin segs 1 h]

/-- Witness for C2 at concrete inputs. -/
theorem rewrite_placeholder_correct_witness :
    (∀ s ∈ ["a = ", " AND b = ", ""], '?' ∉ s.data) ∧
    (rewrite .mysql "a = ? AND b = ?" [.vint 1, .vint 2] =
        ("a = ? AND b = ?", [.vint 1, .vint 2]) ∧
      rewrite .postgres (qmarkJoin ["a = ", " AND b = ", ""])
          [.vint 1, .vint 2] =
        (posJoin 1 ["a = ", " AND b = ", ""], [.vint 1, .vint 2])) :=
  ⟨by decide, rewrite_placeholder_correct "a = ? AND b = ?" [.vint 1, .vint 2]
    ["a = ", " AND b = ", ""] (by decide)⟩

/-- C3: `scope.In` on an empty value list yields exactly the fragment
`1 = 0` with no arguments; on a non-empty list it yields
`col IN (?, …, ?)` with the values as arguments in their original order,
and (for a `?`-free column name) the fragment holds exactly one placeholder
per value. -/
theorem scope_in_spec (col : String) (vs : List GoValue)
    (hcol : '?' ∉ col.data) (hne : vs ≠ []) :
    scopeIn col [] = scopeWhere "1 = 0" [] ∧
    scopeIn col vs =
      scopeWhere (col ++ " IN (" ++ repeatJoin "?" vs.length ++ ")") vs ∧
    countChar '?' (col ++ " IN (" ++ repeatJoin "?" vs.length ++ ")") =
      vs.length := by
  refine ⟨rfl, ?_, ?_⟩
  · rw [scopeIn, if_neg (by simpa [List.length_eq_zero] using hne)]
  · rw [countChar_append, countChar_append, countChar_append,
      countChar_eq_zero _ _ hcol, countChar_repeatJoin_qmark]
    have h2 : countChar '?' " IN (" = 0 := by decide
    have h3 : countChar '?' ")" = 0 := by decide
    omega

/-- Witness for C3 at concrete inputs. -/
theorem scope_in_spec_witness :
    ('?' ∉ "id".data ∧ ([GoValue.vint 1, .vint 2] : List GoValue) ≠ []) ∧
    (scopeIn "id" [] = scopeWhere "1 = 0" [] ∧
      scopeIn "id" [.vint 1, .vint 2] =
        scopeWhere ("id" ++ " IN (" ++ repeatJoin "?" 2 ++ ")")
          [.vint 1, .vint 2] ∧
      countChar '?' ("id" ++ " IN (" ++ repeatJoin "?" 2 ++ ")") = 2) :=
  ⟨⟨by decide, by decide⟩,
    scope_in_spec "id" [.vint 1, .vint 2] (by decide) (by decide)⟩

/-- C5: `Transaction` begins and invokes the callback; it commits when the
callback returns no error, rolls back and propagates the error when the
callback returns one, and rolls back before re-raising when the callback
panics — the rollback action precedes the continuing panic in the trace. -/
theorem transaction_semantics (e p : String) (ce : Option String) :
    Transaction none .ok none = ([.abegin, .acallFn, .acommit], .retOk) ∧
    .acommit ∈ (Transaction none .ok ce).1 ∧
    Transaction none (.err e) ce =
      ([.abegin, .acallFn, .arollback], .retErr e) ∧
    Transaction none (.panics p) ce =
      ([.abegin, .acallFn, .arollback], .panicked p) := by
  refine ⟨rfl, ?_, rfl, rfl⟩
  cases ce <;> simp [Transaction]

/-- C4: with zero accumulated WHERE fragments both `Delete` and the bulk
map-based `Updates` return an error — no statement reaches the connection
(`.error` carries no statement by construction) — and with at least one
fragment both proceed to execute a statement against storage. -/
theorem delete_updates_where_guard (st : St) (q : Query)
    (sets : List (String × GoValue)) :
    (q.wheres.len = 0 →
      Query.Delete st q =
        .error "orm: Delete without WHERE clause is not allowed" ∧
      Query.Updates st q sets =
        .error "orm: Updates without WHERE clause is not allowed") ∧
    (q.wheres.len ≠ 0 →
      (∃ stmt, Query.Delete st q = .ok stmt) ∧
      (∃ stmt, Query.Updates st q sets = .ok stmt)) := by
  constructor
  · intro h
    exact ⟨by simp [Query.Delete, h], by simp [Query.Updates, h]⟩
  · intro h
    constructor
    · simp only [Query.Delete]
      rw [if_neg h]
      exact ⟨_, rfl⟩
    · simp only [Query.Updates]
      rw [if_neg h]
      exact ⟨_, rfl⟩

/-- Witness for C4: an empty-WHERE query errors on both paths; a query with
one accumulated WHERE fragment executes on both paths. -/
theorem delete_updates_where_guard_witness :
    (Query.Delete ⟨⟨[]⟩, ⟨[]⟩, ⟨[]⟩, ⟨[]⟩⟩
        (NewQuery .mysql "users" ["id", "name"] "id") =
      .error "orm: Delete without WHERE clause is not allowed" ∧
    Query.Updates ⟨⟨[]⟩, ⟨[]⟩, ⟨[]⟩, ⟨[]⟩⟩
        (NewQuery .mysql "users" ["id", "name"] "id") [("name", .vstr "x")] =
      .error "orm: Updates without WHERE clause is not allowed") ∧
    ((∃ stmt, Query.Delete ⟨⟨[⟨[⟨"id = ?", [.vint 1]⟩], 1⟩]⟩, ⟨[]⟩, ⟨[]⟩, ⟨[]⟩⟩
        { NewQuery .mysql "users" ["id", "name"] "id" with
          wheres := ⟨0, 1, 1⟩ } = .ok stmt) ∧
    (∃ stmt, Query.Updates ⟨⟨[⟨[⟨"id = ?", [.vint 1]⟩], 1⟩]⟩, ⟨[]⟩, ⟨[]⟩, ⟨[]⟩⟩
        { NewQuery .mysql "users" ["id", "name"] "id" with
          wheres := ⟨0, 1, 1⟩ } [("name", .vstr "x")] = .ok stmt)) :=
  ⟨(delete_updates_where_guard _ _ [("name", .vstr "x")]).1 rfl,
   (delete_updates_where_guard _ _ [("name", .vstr "x")]).2 (by decide)⟩

theorem updateSplit_go (pk : String) (pairs : List (String × GoValue))
    (a : List String) (b : List GoValue) (c : GoValue) :
    pairs.foldl
      (fun acc cv =>
        if cv.1 = pk then (acc.1, acc.2.1, cv.2)
        else (acc.1 ++ [cv.1], acc.2.1 ++ [cv.2], acc.2.2)) (a, b, c) =
      (a ++ (pairs.filter (fun cv => cv.1 ≠ pk)).map (·.1),
       b ++ (pairs.filter (fun cv => cv.1 ≠ pk)).map (·.2),
       pairs.foldl (fun acc cv => if cv.1 = pk then cv.2 else acc) c) := by
  induction pairs generalizing a b c with
  | nil => simp
  | cons cv rest ih =>
    by_cases h : cv.1 = pk <;>
      simp [List.foldl_cons, h, ih, List.append_assoc]

/-- The splitting loop keeps exactly the non-pk pairs, in encoded order,
and tracks the pk value. -/
theorem updateSplit_eq (pk : String) (pairs : List (String × GoValue)) :
    updateSplit pk pairs =
      ((pairs.filter (fun cv => cv.1 ≠ pk)).map (·.1),
       (pairs.filter (fun cv => cv.1 ≠ pk)).map (·.2),
       lastPkVal pk pairs) := by
  simpa [updateSplit, lastPkVal] using updateSplit_go pk pairs [] [] .vnull

/-- C6 counterexample: with an integer primary key at the type's zero value
(encoded as `any(0)`, which is not the nil interface) `Update` does not
fail — it sends the UPDATE statement, using 0 as the WHERE argument. -/
theorem update_zero_pk_not_rejected :
    Query.Update (NewQuery .mysql "users" ["id", "name"] "id")
        ["id", "name"] [.vint 0, .vstr "bob"] =
      .ok ("UPDATE `users` SET `name` = ? WHERE `id` = ?",
        [.vstr "bob", .vint 0]) ∧
    ∀ e, Query.Update (NewQuery .mysql "users" ["id", "name"] "id")
        ["id", "name"] [.vint 0, .vstr "bob"] ≠ .error e := by
  have h1 : Query.Update (NewQuery .mysql "users" ["id", "name"] "id")
      ["id", "name"] [.vint 0, .vstr "bob"] =
      .ok ("UPDATE `users` SET `name` = ? WHERE `id` = ?",
        [.vstr "bob", .vint 0]) := by rfl
  exact ⟨h1, fun e h => by rw [h1] at h; exact Except.noConfusion h⟩

/-- C6 amended: `Update` splits the encoded pairs into the primary-key pair
(used as the WHERE condition and appended as the last argument) and the
remaining pairs (the SET list in encoded order); it fails with the
"primary key value is required" error exactly when the encoded primary-key
value is the nil interface (pk column absent from the encoded pairs, or its
value nil) — a non-nil zero value such as the integer 0 is not rejected. -/
theorem update_split_and_guard (q : Query) (allCols : List String)
    (allVals : List GoValue) :
    (Query.Update q allCols allVals =
        .error "orm: primary key value is required for Update" ↔
      lastPkVal q.pk (allCols.zip allVals) = .vnull) ∧
    (lastPkVal q.pk (allCols.zip allVals) ≠ .vnull →
      Query.Update q allCols allVals =
        .ok (rewrite q.dialect
          (q.buildUpdate
            (((allCols.zip allVals).filter (fun cv => cv.1 ≠ q.pk)).map (·.1)))
          (((allCols.zip allVals).filter (fun cv => cv.1 ≠ q.pk)).map (·.2) ++
            [lastPkVal q.pk (allCols.zip allVals)]))) := by
  by_cases h : lastPkVal q.pk (allCols.zip allVals) = .vnull <;>
    simp [Query.Update, updateSplit_eq, h]

/-- Witness for C6's amended theorem at a concrete non-nil primary key. -/
theorem update_split_and_guard_witness :
    lastPkVal "id" (["id", "name"].zip ([.vint 1, .vstr "bob"] : List GoValue)) ≠ .vnull ∧
    Query.Update (NewQuery .mysql "users" ["id", "name"] "id")
        ["id", "name"] [.vint 1, .vstr "bob"] =
      .ok (rewrite .mysql
        (Query.buildUpdate (NewQuery .mysql "users" ["id", "name"] "id")
          (((["id", "name"].zip ([.vint 1, .vstr "bob"] : List GoValue)).filter
            (fun cv => cv.1 ≠ "id")).map (·.1)))
        (((["id", "name"].zip ([.vint 1, .vstr "bob"] : List GoValue)).filter
            (fun cv => cv.1 ≠ "id")).map (·.2) ++
          [lastPkVal "id" (["id", "name"].zip ([.vint 1, .vstr "bob"] : List GoValue))])) :=
  ⟨by decide,
    (update_split_and_guard (NewQuery .mysql "users" ["id", "name"] "id")
      ["id", "name"] [.vint 1, .vstr "bob"]).2 (by decide)⟩

/-- C7: `Upsert` includes the primary key in the INSERT column/value set
(it encodes with `includesPK = true`); its conflict clause — the MySQL
`ON DUPLICATE KEY UPDATE` form or the PostgreSQL `ON CONFLICT (pk) DO
UPDATE SET` form — updates exactly the inserted columns that are neither
the primary key nor registered created-at columns, so created-at columns
never appear in the generated UPDATE/SET list. -/
theorem upsert_conflict_clause (q : Query) (fields : List (String × GoValue))
    (v : GoValue) (hf : (q.pk, v) ∈ fields) :
    q.pk ∈ (colValPairs q.pk fields true).1 ∧
    v ∈ (colValPairs q.pk fields true).2 ∧
    (∀ c, c ∈ upsertUpdateCols q (colValPairs q.pk fields true).1 ↔
      (c ∈ (colValPairs q.pk fields true).1 ∧ c ≠ q.pk ∧
        c ∉ q.createdAtCols)) ∧
    (q.dialect = .mysql →
      q.buildUpsert (colValPairs q.pk fields true).1 =
        q.buildInsert (colValPairs q.pk fields true).1 ++
          " ON DUPLICATE KEY UPDATE " ++
          mysqlSets q (upsertUpdateCols q (colValPairs q.pk fields true).1)) ∧
    (q.dialect = .postgres →
      q.buildUpsert (colValPairs q.pk fields true).1 =
        q.buildInsert (colValPairs q.pk fields true).1 ++
          " ON CONFLICT (" ++ q.qi q.pk ++ ") DO UPDATE SET " ++
          pgSets q (upsertUpdateCols q (colValPairs q.pk fields true).1)) := by
  refine ⟨?_, ?_, ?_, ?_, ?_⟩
  · simp only [colValPairs, if_pos rfl]
    exact List.mem_map.mpr ⟨(q.pk, v), hf, rfl⟩
  · simp only [colValPairs, if_pos rfl]
    exact List.mem_map.mpr ⟨(q.pk, v), hf, rfl⟩
  · intro c
    simp [upsertUpdateCols, List.mem_filter]
  · intro hd
    simp [Query.buildUpsert, hd]
  · intro hd
    simp [Query.buildUpsert, hd]

/-- Witness for C7 at a concrete article-style type with a registered
created-at column. -/
theorem upsert_conflict_clause_witness :
    (("id", GoValue.vint 1) ∈
      [("id", GoValue.vint 1), ("title", GoValue.vstr "hello"),
        ("created_at", GoValue.vtime 0), ("updated_at", GoValue.vtime 0)]) ∧
    "id" ∈ (colValPairs "id"
      [("id", GoValue.vint 1), ("title", GoValue.vstr "hello"),
        ("created_at", GoValue.vtime 0), ("updated_at", GoValue.vtime 0)]
      true).1 ∧
    "created_at" ∉ upsertUpdateCols
      { NewQuery .mysql "articles" ["id", "title", "created_at", "updated_at"]
          "id" with createdAtCols := ["created_at"] }
      (colValPairs "id"
        [("id", GoValue.vint 1), ("title", GoValue.vstr "hello"),
          ("created_at", GoValue.vtime 0), ("updated_at", GoValue.vtime 0)]
        true).1 :=
  ⟨by decide,
    (upsert_conflict_clause
      { NewQuery .mysql "articles" ["id", "title", "created_at", "updated_at"]
          "id" with createdAtCols := ["created_at"] }
      [("id", .vint 1), ("title", .vstr "hello"),
        ("created_at", .vtime 0), ("updated_at", .vtime 0)]
      (.vint 1) (by decide)).1,
    fun hmem =>
      (((upsert_conflict_clause
        { NewQuery .mysql "articles"
            ["id", "title", "created_at", "updated_at"] "id" with
          createdAtCols := ["created_at"] }
        [("id", .vint 1), ("title", .vstr "hello"),
          ("created_at", .vtime 0), ("updated_at", .vtime 0)]
        (.vint 1) (by decide)).2.2.1 "created_at").mp hmem).2.2 (by decide)⟩

theorem countChar_quoteIdent (d : Dialect) (s : String) :
    countChar '?' (d.quoteIdent s) = countChar '?' s := by
  have hb : countChar '?' "`" = 0 := by decide
  have hd : countChar '?' "\"" = 0 := by decide
  cases d <;> simp [Dialect.quoteIdent, countChar_append, hb, hd]

theorem countChar_quoteColumns (q : Query) (cols : List String)
    (h : ∀ c ∈ cols, '?' ∉ c.data) :
    countChar '?' (q.quoteColumns cols) = 0 := by
  rw [Query.quoteColumns, countChar_strJoin_free _ _ (by decide)]
  simp only [List.map_map]
  rw [List.sum_eq_zero]
  intro x hx
  obtain ⟨c, hc, rfl⟩ := List.mem_map.mp hx
  simp [Function.comp, Query.qi, countChar_quoteIdent,
    countChar_eq_zero _ _ (h c hc)]

theorem countChar_strJoin_replicate (sep s : String) (hsep : '?' ∉ sep.data)
    (n : Nat) :
    countChar '?' (strJoin sep (List.replicate n s)) =
      n * countChar '?' s := by
  rw [countChar_strJoin_free _ _ hsep, List.map_replicate,
    List.sum_replicate, smul_eq_mul]

/-- C8: `CreateAll` on N input rows builds a single INSERT whose authored
text holds exactly N · (number of columns) placeholders (N value groups);
when the dialect uses RETURNING and a key setter is registered, the i-th
returned id is assigned to the i-th input row; otherwise, with a key
setter, row i is assigned `firstID + i`. -/
theorem createAll_batch (q : Query) (hasSetPK : Bool)
    (it0 : List (String × GoValue)) (rest : List (List (String × GoValue)))
    (ids : List Int) (fid : Int)
    (hq : '?' ∉ q.table.data)
    (hcols : ∀ c ∈ (colValPairs q.pk it0 (!hasSetPK)).1, '?' ∉ c.data) :
    countChar '?' (q.buildBatchInsert (colValPairs q.pk it0 (!hasSetPK)).1
        (it0 :: rest).length) =
      (it0 :: rest).length * (colValPairs q.pk it0 (!hasSetPK)).1.length ∧
    ∀ out, Query.CreateAll q hasSetPK (it0 :: rest) ids fid = some out →
      ((q.dialect.useReturning ∧ hasSetPK = true) →
        ∀ i : Nat, out.assigns[i]? = ids[i]?.map (fun id => (i, id))) ∧
      ((¬ q.dialect.useReturning = true ∧ hasSetPK = true) →
        out.assigns.length = (it0 :: rest).length ∧
        ∀ i, i < (it0 :: rest).length →
          out.assigns[i]? = some (i, fid + i)) := by
  constructor
  · have hrow : countChar '?'
        ("(" ++ repeatJoin "?" (colValPairs q.pk it0 (!hasSetPK)).1.length ++
          ")") = (colValPairs q.pk it0 (!hasSetPK)).1.length := by
      rw [countChar_append, countChar_append, countChar_repeatJoin_qmark]
      have h4 : countChar '?' "(" = 0 := by decide
      have h5 : countChar '?' ")" = 0 := by decide
      omega
    simp only [Query.buildBatchInsert, countChar_append]
    rw [Query.qi, countChar_quoteIdent, countChar_eq_zero _ _ hq,
      countChar_quoteColumns _ _ hcols,
      countChar_strJoin_replicate _ _ (by decide), hrow]
    have h1 : countChar '?' "INSERT INTO " = 0 := by decide
    have h2 : countChar '?' " (" = 0 := by decide
    have h3 : countChar '?' ") VALUES " = 0 := by decide
    simp [h1, h2, h3]
  · intro out hout
    simp only [Query.CreateAll] at hout
    by_cases hc : q.dialect.useReturning ∧ hasSetPK = true
    · rw [if_pos hc] at hout
      obtain rfl := Option.some.inj hout
      refine ⟨fun _ i => ?_, fun hnc => absurd hc (by tauto)⟩
      simp [List.getElem?_enum]
    · rw [if_neg hc] at hout
      obtain rfl := Option.some.inj hout
      refine ⟨fun hcc => absurd hcc hc, fun hnc => ?_⟩
      rcases hnc with ⟨hnr, hpk⟩
      constructor
      · simp [hpk]
      · intro i hi
        have hi2 : i < rest.length + 1 := by simpa using hi
        simp [hpk, List.getElem?_range hi2]

/-- Witness for C8: a two-row batch against each dialect. -/
theorem createAll_batch_witness :
    ('?' ∉ "users".data ∧
      (∀ c ∈ (colValPairs "id"
          [("id", GoValue.vnull), ("name", GoValue.vstr "a")] (!true)).1,
        '?' ∉ c.data)) ∧
    countChar '?'
      ((NewQuery .mysql "users" ["id", "name"] "id").buildBatchInsert
        (colValPairs "id"
          [("id", GoValue.vnull), ("name", GoValue.vstr "a")] (!true)).1
        ([[("id", GoValue.vnull), ("name", GoValue.vstr "a")],
          [("id", GoValue.vnull), ("name", GoValue.vstr "b")]] :
            List (List (String × GoValue))).length) =
      ([[("id", GoValue.vnull), ("name", GoValue.vstr "a")],
        [("id", GoValue.vnull), ("name", GoValue.vstr "b")]] :
          List (List (String × GoValue))).length *
        (colValPairs "id"
          [("id", GoValue.vnull), ("name", GoValue.vstr "a")] (!true)).1.length :=
  ⟨⟨by decide, by decide⟩,
    (createAll_batch (NewQuery .mysql "users" ["id", "name"] "id") true
      [("id", .vnull), ("name", .vstr "a")]
      [[("id", .vnull), ("name", .vstr "b")]]
      [] 7 (by decide) (by decide)).1⟩

/-! ### Join-table resolver lemmas -/

theorem utStep_go [DecidableEq T] (l : List T) (res seen : List T)
    (hsync : ∀ x : T, x ∈ seen ↔ x ∈ res) :
    (l.foldl utStep (res, seen)).1 =
      res ++ firstSeen (l.filter (fun y => y ∉ res)) := by
  induction l generalizing res seen with
  | nil => simp [firstSeen]
  | cons x xs ih =>
    by_cases hx : x ∈ seen
    · have hxr : x ∈ res := (hsync x).mp hx
      rw [List.foldl_cons]
      rw [show utStep (res, seen) x = (res, seen) from if_pos hx]
      rw [ih res seen hsync]
      congr 2
      rw [List.filter_cons]
      simp [hxr]
    · have hxr : x ∉ res := fun h => hx ((hsync x).mpr h)
      rw [List.foldl_cons]
      rw [show utStep (res, seen) x = (res ++ [x], seen ++ [x]) from
        if_neg hx]
      rw [ih (res ++ [x]) (seen ++ [x])
        (fun y => by simp [hsync y])]
      have hfil : xs.filter (fun y => y ∉ res ++ [x]) =
          (xs.filter (fun y => y ∉ res)).filter (fun y => y ≠ x) := by
        rw [List.filter_filter]
        apply List.filter_congr
        intro y _
        by_cases h1 : y = x <;> by_cases h2 : y ∈ res <;> simp [h1, h2]
      rw [hfil]
      have hcons : (x :: xs).filter (fun y => y ∉ res) =
          x :: xs.filter (fun y => y ∉ res) := by
        rw [List.filter_cons, if_pos (by simpa using hxr)]
      rw [hcons, firstSeen]
      simp [List.append_assoc]

/-- `UniqueTargets` is exactly stable first-seen deduplication of the
targets. -/
theorem uniqueTargets_eq_firstSeen [DecidableEq T]
    (pairs : List (JoinPair S T)) :
    UniqueTargets pairs = firstSeen (pairs.map (fun p => p.target)) := by
  rw [UniqueTargets]
  have h2 : pairs.foldl
      (fun acc p =>
        if p.target ∈ acc.2 then acc
        else (acc.1 ++ [p.target], acc.2 ++ [p.target])) ([], []) =
      (pairs.map (fun p => p.target)).foldl utStep ([], []) := by
    rw [List.foldl_map]
    rfl
  rw [h2, utStep_go _ [] [] (by simp)]
  simp

theorem groupLookup_nil [DecidableEq S] (s : S) :
    groupLookup ([] : List (S × List T)) s = [] := rfl

theorem groupLookup_cons_pos [DecidableEq S] (e : S × List T)
    (rest : List (S × List T)) (s : S) (h : e.1 = s) :
    groupLookup (e :: rest) s = e.2 := by
  have hf : List.find? (fun p => decide (p.1 = s)) (e :: rest) = some e :=
    List.find?_cons_of_pos rest (by simpa using h)
  simp [groupLookup, assocGet, hf]

theorem groupLookup_cons_neg [DecidableEq S] (e : S × List T)
    (rest : List (S × List T)) (s : S) (h : ¬ e.1 = s) :
    groupLookup (e :: rest) s = groupLookup rest s := by
  have hf : List.find? (fun p => decide (p.1 = s)) (e :: rest) =
      List.find? (fun p => decide (p.1 = s)) rest :=
    List.find?_cons_of_neg rest (by simpa using h)
  simp [groupLookup, assocGet, hf]

theorem groupLookup_append_new [DecidableEq S] (m : List (S × List T))
    (k : S) (v : List T) (s : S)
    (hany : m.any (fun e => e.1 = k) = false) :
    groupLookup (m ++ [(k, v)]) s =
      groupLookup m s ++ (if s = k then v else []) := by
  induction m with
  | nil =>
    by_cases h : s = k
    · rw [List.nil_append, groupLookup_cons_pos _ _ _ h.symm, if_pos h,
        groupLookup_nil, List.nil_append]
    · rw [List.nil_append, groupLookup_cons_neg _ _ _
        (fun hh => h hh.symm), if_neg h, groupLookup_nil]
      rfl
  | cons e rest ih =>
    simp only [List.any_cons, Bool.or_eq_false_iff,
      decide_eq_false_iff_not] at hany
    by_cases hes : e.1 = s
    · have hsk : ¬ s = k := fun hh => hany.1 (hes.trans hh)
      rw [List.cons_append, groupLookup_cons_pos _ _ _ hes,
        groupLookup_cons_pos _ _ _ hes, if_neg hsk, List.append_nil]
    · rw [List.cons_append, groupLookup_cons_neg _ _ _ hes,
        groupLookup_cons_neg _ _ _ hes, ih (by simpa using hany.2)]

theorem groupLookup_update [DecidableEq S] (m : List (S × List T))
    (k : S) (t : T) (s : S) :
    groupLookup (m.map (fun e => if e.1 = k then (e.1, e.2 ++ [t]) else e)) s =
      if s = k ∧ m.any (fun e => e.1 = k) = true then groupLookup m s ++ [t]
      else groupLookup m s := by
  induction m with
  | nil => simp
  | cons e rest ih =>
    rw [List.map_cons]
    by_cases hek : e.1 = k
    · by_cases hes : e.1 = s
      · have hsk : s = k := hes.symm.trans hek
        have h1 : (if e.1 = k then (e.1, e.2 ++ [t]) else e).1 = s := by
          rw [if_pos hek]; exact hes
        have ha : ((e :: rest).any (fun e => e.1 = k)) = true := by
          simp [hek]
        rw [groupLookup_cons_pos _ _ _ h1,
          groupLookup_cons_pos _ _ _ hes, if_pos (And.intro hsk ha),
          if_pos hek]
      · have hsk : ¬ s = k := fun hh => hes (hek.trans hh.symm)
        have h1 : ¬ (if e.1 = k then (e.1, e.2 ++ [t]) else e).1 = s := by
          rw [if_pos hek]; exact hes
        rw [groupLookup_cons_neg _ _ _ h1,
          groupLookup_cons_neg _ _ _ hes, ih,
          if_neg (fun hh => hsk hh.1), if_neg (fun hh => hsk hh.1)]
    · by_cases hes : e.1 = s
      · have hsk : ¬ s = k := fun hh => hek (hes.trans hh)
        have h1 : (if e.1 = k then (e.1, e.2 ++ [t]) else e).1 = s := by
          rw [if_neg hek]; exact hes
        rw [groupLookup_cons_pos _ _ _ h1,
          groupLookup_cons_pos _ _ _ hes, if_neg hek,
          if_neg (fun hh => hsk hh.1)]
      · have h1 : ¬ (if e.1 = k then (e.1, e.2 ++ [t]) else e).1 = s := by
          rw [if_neg hek]; exact hes
        rw [groupLookup_cons_neg _ _ _ h1,
          groupLookup_cons_neg _ _ _ hes, ih]
        have ha : ((e :: rest).any (fun e => e.1 = k)) =
            (rest.any (fun e => e.1 = k)) := by
          simp [hek]
        rw [ha]

theorem groupBySource_go [DecidableEq S] (pairs : List (JoinPair S T))
    (m : List (S × List T)) (s : S) :
    groupLookup (pairs.foldl
      (fun m p =>
        if m.any (fun e => e.1 = p.source) then
          m.map (fun e =>
            if e.1 = p.source then (e.1, e.2 ++ [p.target]) else e)
        else m ++ [(p.source, [p.target])]) m) s =
      groupLookup m s ++
        (pairs.filter (fun p => p.source = s)).map (fun p => p.target) := by
  induction pairs generalizing m with
  | nil => simp
  | cons p rest ih =>
    rw [List.foldl_cons]
    by_cases hany : m.any (fun e => e.1 = p.source) = true
    · rw [if_pos hany, ih]
      rw [groupLookup_update]
      by_cases hs : s = p.source
      · rw [if_pos (And.intro hs hany)]
        rw [List.filter_cons]
        simp [hs.symm, List.append_assoc]
      · rw [if_neg (fun h => hs h.1)]
        rw [List.filter_cons]
        have hps : ¬ p.source = s := fun h => hs h.symm
        rw [if_neg (by simpa using hps)]
    · rw [if_neg hany, ih]
      rw [groupLookup_append_new _ _ _ _
        (by revert hany; cases m.any (fun e => e.1 = p.source) <;> simp)]
      by_cases hs : s = p.source
      · rw [if_pos hs]
        rw [List.filter_cons]
        simp [hs.symm, List.append_assoc]
      · rw [if_neg hs]
        rw [List.filter_cons]
        have hps : ¬ p.source = s := fun h => hs h.symm
        rw [if_neg (by simpa using hps)]
        simp

/-- C9: the join-table resolver issues no query (and returns a nil result)
for an empty source-key list; for a non-empty list it issues the one SELECT
whose authored IN predicate holds exactly one placeholder per source key,
with the keys as arguments; `UniqueTargets` is stable first-seen
deduplication of the pairs' targets; and `GroupBySource` maps each source
key to its targets in pair-insertion order. -/
theorem join_table_resolver {S T : Type} [DecidableEq S] [DecidableEq T]
    (d : Dialect) (table sourceCol targetCol : String)
    (ids : List GoValue) (dbPairs : List (JoinPair GoValue GoValue))
    (pairs : List (JoinPair S T)) (s : S)
    (hids : ids ≠ [])
    (hfree : '?' ∉ table.data ∧ '?' ∉ sourceCol.data ∧
      '?' ∉ targetCol.data) :
    QueryJoinTable d table sourceCol targetCol [] dbPairs = (none, []) ∧
    QueryJoinTable d table sourceCol targetCol ids dbPairs =
      ((some (rewritePlaceholders d
          (joinTableSQL d table sourceCol targetCol ids.length), ids)),
        dbPairs) ∧
    countChar '?' (joinTableSQL d table sourceCol targetCol ids.length) =
      ids.length ∧
    UniqueTargets pairs = firstSeen (pairs.map (fun p => p.target)) ∧
    groupLookup (GroupBySource pairs) s =
      (pairs.filter (fun p => p.source = s)).map (fun p => p.target) := by
  refine ⟨rfl, ?_, ?_, uniqueTargets_eq_firstSeen pairs, ?_⟩
  · rw [QueryJoinTable, if_neg (by simpa [List.length_eq_zero] using hids)]
  · rw [joinTableSQL]
    have hz1 : countChar '?' table = 0 := countChar_eq_zero _ _ hfree.1
    have hz2 : countChar '?' sourceCol = 0 := countChar_eq_zero _ _ hfree.2.1
    have hz3 : countChar '?' targetCol = 0 := countChar_eq_zero _ _ hfree.2.2
    simp only [countChar_append, countChar_quoteIdent, hz1, hz2, hz3,
      countChar_repeatJoin_qmark]
    have h1 : countChar '?' "SELECT " = 0 := by decide
    have h2 : countChar '?' ", " = 0 := by decide
    have h3 : countChar '?' " FROM " = 0 := by decide
    have h4 : countChar '?' " WHERE " = 0 := by decide
    have h5 : countChar '?' " IN (" = 0 := by decide
    have h6 : countChar '?' ")" = 0 := by decide
    omega
  · have h := groupBySource_go pairs [] s
    simpa [GroupBySource] using h

/-- Witness for C9 at concrete inputs: two source keys, three pairs. -/
theorem join_table_resolver_witness :
    (([GoValue.vint 1, GoValue.vint 2] : List GoValue) ≠ [] ∧
      '?' ∉ "user_tags".data ∧ '?' ∉ "user_id".data ∧
      '?' ∉ "tag_id".data) ∧
    (QueryJoinTable .postgres "user_tags" "user_id" "tag_id" []
        [⟨.vint 1, .vint 10⟩] = (none, []) ∧
      countChar '?' (joinTableSQL .postgres "user_tags" "user_id" "tag_id"
        ([GoValue.vint 1, GoValue.vint 2] : List GoValue).length) =
        ([GoValue.vint 1, GoValue.vint 2] : List GoValue).length ∧
      UniqueTargets ([⟨1, 10⟩, ⟨1, 20⟩, ⟨2, 20⟩] : List (JoinPair Nat Nat)) =
        firstSeen (([⟨1, 10⟩, ⟨1, 20⟩, ⟨2, 20⟩] :
          List (JoinPair Nat Nat)).map (fun p => p.target)) ∧
      groupLookup (GroupBySource ([⟨1, 10⟩, ⟨1, 20⟩, ⟨2, 20⟩] :
          List (JoinPair Nat Nat))) 1 =
        (([⟨1, 10⟩, ⟨1, 20⟩, ⟨2, 20⟩] : List (JoinPair Nat Nat)).filter
          (fun p => p.source = 1)).map (fun p => p.target)) :=
  ⟨⟨by decide, by decide, by decide, by decide⟩,
    (join_table_resolver .postgres "user_tags" "user_id" "tag_id"
      [.vint 1, .vint 2] [⟨.vint 1, .vint 10⟩]
      ([⟨1, 10⟩, ⟨1, 20⟩, ⟨2, 20⟩] : List (JoinPair Nat Nat)) 1
      (by decide) ⟨by decide, by decide, by decide⟩).1,
    ((join_table_resolver .postgres "user_tags" "user_id" "tag_id"
      [.vint 1, .vint 2] [⟨.vint 1, .vint 10⟩]
      ([⟨1, 10⟩, ⟨1, 20⟩, ⟨2, 20⟩] : List (JoinPair Nat Nat)) 1
      (by decide) ⟨by decide, by decide, by decide⟩).2.2.1),
    ((join_table_resolver .postgres "user_tags" "user_id" "tag_id"
      [.vint 1, .vint 2] [⟨.vint 1, .vint 10⟩]
      ([⟨1, 10⟩, ⟨1, 20⟩, ⟨2, 20⟩] : List (JoinPair Nat Nat)) 1
      (by decide) ⟨by decide, by decide, by decide⟩).2.2.2.1),
    ((join_table_resolver .postgres "user_tags" "user_id" "tag_id"
      [.vint 1, .vint 2] [⟨.vint 1, .vint 10⟩]
      ([⟨1, 10⟩, ⟨1, 20⟩, ⟨2, 20⟩] : List (JoinPair Nat Nat)) 1
      (by decide) ⟨by decide, by decide, by decide⟩).2.2.2.2)⟩

/-! ### Registry-map lemmas -/

theorem assocGet_cons_pos [DecidableEq κ] (e : κ × α) (rest : List (κ × α))
    (k : κ) (h : e.1 = k) : assocGet (e :: rest) k = some e.2 := by
  have hf : List.find? (fun p => decide (p.1 = k)) (e :: rest) = some e :=
    List.find?_cons_of_pos rest (by simpa using h)
  simp [assocGet, hf]

theorem assocGet_cons_neg [DecidableEq κ] (e : κ × α) (rest : List (κ × α))
    (k : κ) (h : ¬ e.1 = k) : assocGet (e :: rest) k = assocGet rest k := by
  have hf : List.find? (fun p => decide (p.1 = k)) (e :: rest) =
      List.find? (fun p => decide (p.1 = k)) rest :=
    List.find?_cons_of_neg rest (by simpa using h)
  simp [assocGet, hf]

theorem assocGet_append_single [DecidableEq κ] (mm : List (κ × α)) (k : κ)
    (v : α) (h : mm.any (fun p => p.1 = k) = false) :
    assocGet (mm ++ [(k, v)]) k = some v := by
  induction mm with
  | nil => exact assocGet_cons_pos (k, v) [] k rfl
  | cons e rest ih =>
    simp only [List.any_cons, Bool.or_eq_false_iff,
      decide_eq_false_iff_not] at h
    rw [List.cons_append, assocGet_cons_neg _ _ _ h.1]
    exact ih (by simpa using h.2)

theorem assocGet_map_replace [DecidableEq κ] (mm : List (κ × α)) (k : κ)
    (v : α) (h : mm.any (fun p => p.1 = k) = true) :
    assocGet (mm.map (fun p => if p.1 = k then (k, v) else p)) k =
      some v := by
  induction mm with
  | nil => simp at h
  | cons e rest ih =>
    by_cases he : e.1 = k
    · rw [List.map_cons, if_pos he]
      exact assocGet_cons_pos (k, v) _ k rfl
    · rw [List.map_cons, if_neg he, assocGet_cons_neg _ _ _ he]
      exact ih (by simpa [he] using h)

/-- Inserting a key into a Go map makes it visible to every subsequent
lookup through any reference to that map. -/
theorem assocGet_assocPut_self [DecidableEq κ] (mm : List (κ × α)) (k : κ)
    (v : α) : assocGet (assocPut mm k v) k = some v := by
  rw [assocPut]
  by_cases h : mm.any (fun p => p.1 = k) = true
  · rw [if_pos h]
    exact assocGet_map_replace mm k v h
  · rw [if_neg h]
    exact assocGet_append_single mm k v
      (by revert h; cases mm.any (fun p => p.1 = k) <;> simp)

theorem MapStore.get_put_self [DecidableEq κ] (ms : MapStore κ α) (i : Nat)
    (k : κ) (v : α) (h : i < ms.fresh) :
    (ms.put i k v).get i = assocPut (ms.get i) k v := by
  simp only [MapStore.put, MapStore.get, List.getD_eq_getElem?_getD]
  rw [List.getElem?_set_self h]
  rfl

/-- C10: `RegisterJoin` and `RegisterPreloader` mutate the receiving Query
in place — the heap slice stores and the other registry are untouched, and
the returned receiver differs at most in the lazily-allocated registry
reference; `clone` copies only the slice fields, sharing both registry
references; hence when the join registry already existed at clone time, a
registration on the base is visible to the join lookup the derived copy
performs when it executes. -/
theorem register_in_place_shared_registry (st : St) (q : Query)
    (name : String) (cfg : JoinConfig) (fn : Nat) (cp : Caps) (m : Nat)
    (hm : q.joinDefs = some m) (hlt : m < st.jds.fresh) :
    ((q.RegisterJoin st name cfg).1.ws = st.ws ∧
      (q.RegisterJoin st name cfg).1.ss = st.ss ∧
      (q.RegisterJoin st name cfg).1.pls = st.pls ∧
      { (q.RegisterJoin st name cfg).2 with joinDefs := q.joinDefs } = q) ∧
    ((q.RegisterPreloader st name fn).1.ws = st.ws ∧
      (q.RegisterPreloader st name fn).1.ss = st.ss ∧
      (q.RegisterPreloader st name fn).1.jds = st.jds ∧
      { (q.RegisterPreloader st name fn).2 with
        preloaders := q.preloaders } = q) ∧
    ((clone st q cp).2.joinDefs = q.joinDefs ∧
      (clone st q cp).2.preloaders = q.preloaders) ∧
    (q.RegisterJoin st name cfg).2 = q ∧
    ((clone st q cp).2.joinDefs.bind (fun i =>
        assocGet ((q.RegisterJoin (clone st q cp).1 name cfg).1.jds.get i)
          name)) = some cfg := by
  refine ⟨?_, ?_, ⟨rfl, rfl⟩, ?_, ?_⟩
  · cases hj : q.joinDefs <;> simp [Query.RegisterJoin, hj] <;> rw [← hj]
  · cases hp : q.preloaders <;> simp [Query.RegisterPreloader, hp] <;>
      rw [← hp]
  · simp [Query.RegisterJoin, hm]
  · have hcj : (clone st q cp).2.joinDefs = some m := hm
    rw [hcj]
    show assocGet
        ((Query.RegisterJoin (clone st q cp).1 q name cfg).1.jds.get m)
        name = some cfg
    simp only [Query.RegisterJoin, hm]
    show assocGet ((st.jds.put m name cfg).get m) name = some cfg
    rw [MapStore.get_put_self st.jds m name cfg hlt,
      assocGet_assocPut_self]

/-- Witness for C10: a base query whose registry was allocated by a first
registration, then cloned, then registered onto again. -/
theorem register_in_place_shared_registry_witness :
    (({ NewQuery .mysql "users" ["id", "name"] "id" with
        joinDefs := some 0 } : Query).joinDefs = some 0 ∧
      (0 : Nat) < (⟨⟨[]⟩, ⟨[]⟩, ⟨[[("Old", JoinConfig.mk "a" "b" "c" "d")]]⟩,
        ⟨[]⟩⟩ : St).jds.fresh) ∧
    ((clone (⟨⟨[]⟩, ⟨[]⟩, ⟨[[("Old", JoinConfig.mk "a" "b" "c" "d")]]⟩, ⟨[]⟩⟩ : St)
        ({ NewQuery .mysql "users" ["id", "name"] "id" with
          joinDefs := some 0 } : Query) ⟨0, 0, 0, 0, []⟩).2.joinDefs.bind
      (fun i => assocGet
        ((Query.RegisterJoin
          (clone (⟨⟨[]⟩, ⟨[]⟩, ⟨[[("Old", JoinConfig.mk "a" "b" "c" "d")]]⟩,
            ⟨[]⟩⟩ : St)
            ({ NewQuery .mysql "users" ["id", "name"] "id" with
              joinDefs := some 0 } : Query) ⟨0, 0, 0, 0, []⟩).1
          ({ NewQuery .mysql "users" ["id", "name"] "id" with
            joinDefs := some 0 } : Query)
          "Posts" (JoinConfig.mk "posts" "user_id" "users" "id")).1.jds.get i)
        "Posts")) =
      some (JoinConfig.mk "posts" "user_id" "users" "id") :=
  ⟨⟨rfl, by decide⟩,
    (register_in_place_shared_registry
      (⟨⟨[]⟩, ⟨[]⟩, ⟨[[("Old", JoinConfig.mk "a" "b" "c" "d")]]⟩, ⟨[]⟩⟩ : St)
      ({ NewQuery .mysql "users" ["id", "name"] "id" with
        joinDefs := some 0 } : Query)
      "Posts" (JoinConfig.mk "posts" "user_id" "users" "id") 0
      ⟨0, 0, 0, 0, []⟩ 0 rfl (by decide)).2.2.2.2⟩

/-! ### Frame lemmas for the builder-immutability law -/

theorem Store.get_write_ne (st : Store α) (i j : Nat) (x : α) (k : Nat)
    (h : k ≠ i) : (st.write i j x).get k = st.get k := by
  simp only [Store.write, Store.get, List.getD_eq_getElem?_getD]
  rw [List.getElem?_set_ne (fun hh => h hh.symm)]

theorem Store.fresh_write (st : Store α) (i j : Nat) (x : α) :
    (st.write i j x).fresh = st.fresh := by
  simp [Store.write, Store.fresh]

theorem Store.get_push (st : Store α) (a : GoArray α) (i : Nat)
    (h : i < st.fresh) : (Store.mk (st.arrs ++ [a])).get i = st.get i := by
  simp only [Store.get, List.getD_eq_getElem?_getD]
  rw [List.getElem?_append_left h]

theorem Store.frameLe_refl (n : Nat) (st : Store α) :
    Store.frameLe n st st :=
  ⟨fun _ _ => rfl, le_refl _⟩

theorem Store.frameLe_trans {n : Nat} {st1 st2 st3 : Store α}
    (h1 : Store.frameLe n st1 st2) (h2 : Store.frameLe n st2 st3) :
    Store.frameLe n st1 st3 :=
  ⟨fun i hi => (h2.1 i hi).trans (h1.1 i hi), le_trans h1.2 h2.2⟩

theorem Store.append1_frame (st : Store α) (s : GoSlice) (x : α)
    (g n : Nat) (hok : s.freshOk n) (hn : n ≤ st.fresh) :
    Store.frameLe n st (st.append1 s x g).1 ∧
      (st.append1 s x g).2.freshOk n := by
  rw [Store.append1]
  by_cases hc : s.len < s.cap
  · rw [if_pos hc]
    rcases hok with h0 | harr
    · omega
    · exact ⟨⟨fun i hi => Store.get_write_ne st s.arr s.len x i (by omega),
        le_of_eq (Store.fresh_write st s.arr s.len x).symm⟩, Or.inr harr⟩
  · rw [if_neg hc]
    refine ⟨⟨fun i hi => Store.get_push st _ i (lt_of_lt_of_le hi hn), ?_⟩,
      Or.inr hn⟩
    simp [Store.fresh]

theorem Store.copySlice_frame (st : Store α) (s : GoSlice) (c n : Nat)
    (hn : n ≤ st.fresh) :
    Store.frameLe n st (st.copySlice s c).1 ∧
      (st.copySlice s c).2.freshOk n := by
  rw [Store.copySlice]
  by_cases h0 : s.len = 0
  · rw [if_pos h0]
    exact ⟨Store.frameLe_refl n st, Or.inl rfl⟩
  · rw [if_neg h0]
    refine ⟨⟨fun i hi => Store.get_push st _ i (lt_of_lt_of_le hi hn), ?_⟩,
      Or.inr hn⟩
    simp [Store.fresh]

theorem Store.read_frame {n : Nat} {st st' : Store α}
    (hf : Store.frameLe n st st') (s : GoSlice) (hv : s.validIn n) :
    st'.read s = st.read s := by
  rcases hv with h0 | hlt
  · simp [Store.read, h0]
  · simp [Store.read, hf.1 s.arr hlt]

theorem St.frame_refl (nw ns : Nat) (st : St) : St.frame nw ns st st :=
  ⟨Store.frameLe_refl nw st.ws, Store.frameLe_refl ns st.ss⟩

theorem St.frame_trans {nw ns : Nat} {st1 st2 st3 : St}
    (h1 : St.frame nw ns st1 st2) (h2 : St.frame nw ns st2 st3) :
    St.frame nw ns st1 st3 :=
  ⟨Store.frameLe_trans h1.1 h2.1, Store.frameLe_trans h1.2 h2.2⟩

theorem clone_frame (st : St) (q : Query) (cp : Caps) :
    St.frame st.ws.fresh st.ss.fresh st (clone st q cp).1 ∧
    (clone st q cp).2.wheres.freshOk st.ws.fresh ∧
    (clone st q cp).2.orderBys.freshOk st.ss.fresh ∧
    (clone st q cp).2.joins.freshOk st.ss.fresh ∧
    (clone st q cp).2.preloads.freshOk st.ss.fresh := by
  have h1 := Store.copySlice_frame st.ws q.wheres cp.c1 st.ws.fresh
    (le_refl _)
  have h2 := Store.copySlice_frame st.ss q.orderBys cp.c2 st.ss.fresh
    (le_refl _)
  have h3 := Store.copySlice_frame (st.ss.copySlice q.orderBys cp.c2).1
    q.joins cp.c3 st.ss.fresh (le_trans (le_refl _) h2.1.2)
  have h4 := Store.copySlice_frame
    ((st.ss.copySlice q.orderBys cp.c2).1.copySlice q.joins cp.c3).1
    q.preloads cp.c4 st.ss.fresh (le_trans h2.1.2 h3.1.2)
  exact ⟨⟨h1.1, Store.frameLe_trans h2.1 (Store.frameLe_trans h3.1 h4.1)⟩,
    h1.2, h2.2, h3.2, h4.2⟩

theorem scopeApply_frame (s : Scope) (st : St) (q : Query) (g : Nat)
    (nw ns : Nat) (hinv : ScopeInv nw ns st q) :
    St.frame nw ns st (s.Apply st q g).1 ∧
      ScopeInv nw ns (s.Apply st q g).1 (s.Apply st q g).2 := by
  obtain ⟨hnw, hns, hwok, hook⟩ := hinv
  cases s with
  | swhere clause args =>
    have h := Store.append1_frame st.ws q.wheres ⟨clause, args⟩ g nw hwok hnw
    exact ⟨⟨h.1, Store.frameLe_refl ns st.ss⟩,
      ⟨le_trans hnw h.1.2, hns, h.2, hook⟩⟩
  | sorderBy clause =>
    have h := Store.append1_frame st.ss q.orderBys clause g ns hook hns
    exact ⟨⟨Store.frameLe_refl nw st.ws, h.1⟩,
      ⟨hnw, le_trans hns h.1.2, hwok, h.2⟩⟩
  | slimit n => exact ⟨St.frame_refl nw ns st, ⟨hnw, hns, hwok, hook⟩⟩
  | soffset n => exact ⟨St.frame_refl nw ns st, ⟨hnw, hns, hwok, hook⟩⟩
  | sselect c => exact ⟨St.frame_refl nw ns st, ⟨hnw, hns, hwok, hook⟩⟩

theorem applyScopes_frame (scopes : List Scope) (st : St) (q : Query)
    (gs : List Nat) (nw ns : Nat) (hinv : ScopeInv nw ns st q) :
    St.frame nw ns st (applyScopes st q scopes gs).1 := by
  induction scopes generalizing st q gs with
  | nil => exact St.frame_refl nw ns st
  | cons s rest ih =>
    rw [applyScopes]
    have h := scopeApply_frame s st q (gs.headD 0) nw ns hinv
    exact St.frame_trans h.1 (ih _ _ _ h.2)

theorem ssAppend_frame (st : St) (q : Query) (cp : Caps) (s : GoSlice)
    (c : String) (hok : s.freshOk st.ss.fresh) :
    St.frame st.ws.fresh st.ss.fresh st
      { (clone st q cp).1 with
        ss := ((clone st q cp).1.ss.append1 s c (cp.grow.headD 0)).1 } := by
  have hc := clone_frame st q cp
  have h := Store.append1_frame (clone st q cp).1.ss s c (cp.grow.headD 0)
    st.ss.fresh hok hc.1.2.2
  exact St.frame_trans hc.1 ⟨Store.frameLe_refl _ _, h.1⟩

theorem applyOp_frame (st : St) (q : Query) (op : BuilderOp) (cp : Caps) :
    St.frame st.ws.fresh st.ss.fresh st (applyOp st q op cp).1 := by
  have hc := clone_frame st q cp
  cases op with
  | bWhere clause args =>
    have h := Store.append1_frame (clone st q cp).1.ws
      (clone st q cp).2.wheres ⟨clause, args⟩ (cp.grow.headD 0)
      st.ws.fresh hc.2.1 (le_trans (le_refl _) hc.1.1.2)
    exact St.frame_trans hc.1 ⟨h.1, Store.frameLe_refl _ _⟩
  | bOrderBy clause => exact ssAppend_frame st q cp _ _ hc.2.2.1
  | bLimit n => exact hc.1
  | bOffset n => exact hc.1
  | bSelect c => exact hc.1
  | bPreload name => exact ssAppend_frame st q cp _ _ hc.2.2.2.2
  | bJoin name =>
    show St.frame _ _ st (Query.addJoin st q "INNER JOIN" name cp).1
    rw [Query.addJoin]
    cases q.joinDefs.bind (fun i => assocGet (st.jds.get i) name) with
    | none => exact St.frame_refl _ _ st
    | some cfg => exact ssAppend_frame st q cp _ _ hc.2.2.2.1
  | bLeftJoin name =>
    show St.frame _ _ st (Query.addJoin st q "LEFT JOIN" name cp).1
    rw [Query.addJoin]
    cases q.joinDefs.bind (fun i => assocGet (st.jds.get i) name) with
    | none => exact St.frame_refl _ _ st
    | some cfg => exact ssAppend_frame st q cp _ _ hc.2.2.2.1
  | bScopes scopes =>
    refine St.frame_trans hc.1 (applyScopes_frame scopes (clone st q cp).1
      (clone st q cp).2 cp.grow st.ws.fresh st.ss.fresh ?_)
    exact ⟨hc.1.1.2, hc.1.2.2, hc.2.1, hc.2.2.1⟩

theorem observable_frame (st st' : St) (q : Query)
    (hf : St.frame st.ws.fresh st.ss.fresh st st')
    (hw : q.wheres.validIn st.ws.fresh)
    (ho : q.orderBys.validIn st.ss.fresh)
    (hj : q.joins.validIn st.ss.fresh) :
    observable st' q = observable st q := by
  have h1 := Store.read_frame hf.1 q.wheres hw
  have h2 := Store.read_frame hf.2 q.orderBys ho
  have h3 := Store.read_frame hf.2 q.joins hj
  simp [observable, buildSelect, buildCount, buildDelete, h1, h2, h3]

/-- C1: every builder call — Where, OrderBy, Limit, Offset, Select, Join,
LeftJoin, Preload, Scopes, under every implementation-chosen capacity
assignment — returns a new Query without changing the observable SQL text
and argument lists the original value's terminal methods produce, and never
writes in place to any heap array that existed before the call (the
receiver's slice fields, and everyone else's, are never mutated). -/
theorem builder_immutability (st : St) (q : Query) (op : BuilderOp)
    (cp : Caps)
    (hw : q.wheres.validIn st.ws.fresh)
    (ho : q.orderBys.validIn st.ss.fresh)
    (hj : q.joins.validIn st.ss.fresh) :
    observable (applyOp st q op cp).1 q = observable st q ∧
    (∀ i, i < st.ws.fresh → (applyOp st q op cp).1.ws.get i = st.ws.get i) ∧
    (∀ i, i < st.ss.fresh →
      (applyOp st q op cp).1.ss.get i = st.ss.get i) := by
  have hf := applyOp_frame st q op cp
  exact ⟨observable_frame st (applyOp st q op cp).1 q hf hw ho hj,
    hf.1.1, hf.2.1⟩

/-- Witness for C1: a Where call on a query that already accumulated one
WHERE fragment, in a heap that also holds a sibling's array. -/
theorem builder_immutability_witness :
    (((⟨0, 1, 1⟩ : GoSlice).validIn
        (⟨⟨[⟨[⟨"id = ?", [.vint 1]⟩], 1⟩, ⟨[⟨"x = ?", [.vint 9]⟩], 1⟩]⟩,
          ⟨[]⟩, ⟨[]⟩, ⟨[]⟩⟩ : St).ws.fresh) ∧
      (nilSlice.validIn
        (⟨⟨[⟨[⟨"id = ?", [.vint 1]⟩], 1⟩, ⟨[⟨"x = ?", [.vint 9]⟩], 1⟩]⟩,
          ⟨[]⟩, ⟨[]⟩, ⟨[]⟩⟩ : St).ss.fresh) ∧
      (nilSlice.validIn
        (⟨⟨[⟨[⟨"id = ?", [.vint 1]⟩], 1⟩, ⟨[⟨"x = ?", [.vint 9]⟩], 1⟩]⟩,
          ⟨[]⟩, ⟨[]⟩, ⟨[]⟩⟩ : St).ss.fresh)) ∧
    observable
      (applyOp
        (⟨⟨[⟨[⟨"id = ?", [.vint 1]⟩], 1⟩, ⟨[⟨"x = ?", [.vint 9]⟩], 1⟩]⟩,
          ⟨[]⟩, ⟨[]⟩, ⟨[]⟩⟩ : St)
        ({ NewQuery .mysql "users" ["id", "name"] "id" with
          wheres := ⟨0, 1, 1⟩ } : Query)
        (.bWhere "name = ?" [.vstr "alice"]) ⟨2, 3, 4, 5, [7]⟩).1
      ({ NewQuery .mysql "users" ["id", "name"] "id" with
        wheres := ⟨0, 1, 1⟩ } : Query) =
    observable
      (⟨⟨[⟨[⟨"id = ?", [.vint 1]⟩], 1⟩, ⟨[⟨"x = ?", [.vint 9]⟩], 1⟩]⟩,
        ⟨[]⟩, ⟨[]⟩, ⟨[]⟩⟩ : St)
      ({ NewQuery .mysql "users" ["id", "name"] "id" with
        wheres := ⟨0, 1, 1⟩ } : Query) :=
  ⟨⟨Or.inr (by decide), Or.inl rfl, Or.inl rfl⟩,
    (builder_immutability
      (⟨⟨[⟨[⟨"id = ?", [.vint 1]⟩], 1⟩, ⟨[⟨"x = ?", [.vint 9]⟩], 1⟩]⟩,
        ⟨[]⟩, ⟨[]⟩, ⟨[]⟩⟩ : St)
      ({ NewQuery .mysql "users" ["id", "name"] "id" with
        wheres := ⟨0, 1, 1⟩ } : Query)
      (.bWhere "name = ?" [.vstr "alice"]) ⟨2, 3, 4, 5, [7]⟩
      (Or.inr (by decide)) (Or.inl rfl) (Or.inl rfl)).1⟩

end Ormgen
